import Mathlib

/-!
Verification development for the namedb adaptive radix tree (src/tree.c,
src/tree.h, src/simd.h).  The C code is shallowly embedded: octets are `Nat`
(values < 256), buffers are `List Nat`, fallible allocation is threaded as a
supply of booleans, and the `uint8_t` arithmetic of the source is reproduced
with explicit bounds.
-/

namespace Namedb

/-- Octet translation from tree.c lines 23-32: adds 0x01 below 0x41, folds
uppercase ASCII onto lowercase by adding 0x07, and subtracts 0x19 above 0x5a. -/
def xlat (o : Nat) : Nat :=
  if o < 0x41 then o + 0x01
  else if o < 0x5b then o + 0x07
  else o - 0x19

/-- Key octet to node38 slot translation, tree.c lines 35-49.
255 models the C value `(uint8_t)-1` (no mapping). -/
def node38_xlat (k : Nat) : Nat :=
  if 0x48 ≤ k ∧ k ≤ 0x61 then k - 0x3c
  else if 0x31 ≤ k ∧ k ≤ 0x3a then k - 0x2f
  else if k = 0x2e then 0x01
  else if k = 0x00 then 0x00
  else 255

/-- Node38 slot to key octet translation, tree.c lines 52-66, transcribed with
the source's branch bounds (the first branch starts at 0x0b). -/
def node38_unxlat (k : Nat) : Nat :=
  if 0x0b ≤ k ∧ k ≤ 0x25 then k + 0x3c
  else if 0x02 ≤ k ∧ k ≤ 0x0b then k + 0x2f
  else if k = 0x01 then 0x2e
  else if k = 0x00 then 0x00
  else 255

/-- Core loop of nsd_make_key (tree.c lines 77-86), consuming one octet of the
wire name per step.  The second argument counts the octets still to copy from
the current label (0 means the next octet is a length octet); the third is the
running total `len`.  A name that ends before its last label is complete makes
the C read out of bounds; the model returns `none` there.  On reaching the
terminating zero-length label the accumulated key body (labels translated by
`xlat`, each followed by a 0x00 separator) is returned. -/
def mkLoop : List Nat → Nat → Nat → Option (List Nat)
  | [], _, _ => none
  | o :: rest, 0, len =>
    if o = 0 then some []
    else if o &&& 0xc0 ≠ 0 ∨ 255 < len + o + 1 then none
    else mkLoop rest o (len + o + 1)
  | o :: rest, 1, len =>
    match mkLoop rest 0 len with
    | none => none
    | some k => some (xlat o :: 0 :: k)
  | o :: rest, cnt + 2, len =>
    match mkLoop rest (cnt + 1) len with
    | none => none
    | some k => some (xlat o :: k)

/-- nsd_make_key, tree.c lines 68-90.  The C returns the key length in a
`uint8_t`; a body of 255 octets yields a return value of `(255 + 1) % 256 = 0`,
the failure code, so the model returns `none` exactly there as well.  On
success the returned list is the key: the translated labels, their 0x00
separators, and the final 0x00 terminator. -/
def nsd_make_key (name : List Nat) : Option (List Nat) :=
  match mkLoop name 0 0 with
  | none => none
  | some k => if k.length = 255 then none else some (k ++ [0])

/-- Wire-format encoding of a list of labels: each label is its length octet
followed by its content octets, and the name ends with a zero length octet. -/
def encodeWire (ls : List (List Nat)) : List Nat :=
  (ls.map (fun l => l.length :: l)).flatten ++ [0]

/-- Body of the key produced for a list of labels: each label translated
octet-wise by `xlat` and followed by a 0x00 separator. -/
def encBody (ls : List (List Nat)) : List Nat :=
  (ls.map (fun l => l.map xlat ++ [0])).flatten

/-- Sum of (label length + 1) over all labels: the length of the key body. -/
def labelSum (ls : List (List Nat)) : Nat :=
  (ls.map (fun l => l.length + 1)).sum

/-- Total length of the key for a list of labels (body plus terminator). -/
def totalKeyLen (ls : List (List Nat)) : Nat := labelSum ls + 1

/-- Well-formed label list: labels are nonempty, fit in a length octet, and
hold octet values. -/
abbrev wfLabels (ls : List (List Nat)) : Prop :=
  ∀ l ∈ ls, l ≠ [] ∧ l.length ≤ 255 ∧ ∀ o ∈ l, o < 256

/-! Canonical DNS ordering (RFC 4034 section 6.1), the mathematical order the
spec compares keys against: names are compared label by label from the
rightmost label, labels octet-wise after ASCII case folding, with a missing
octet or label sorting first. -/

/-- ASCII lowercase folding of an octet. -/
def lowerOct (o : Nat) : Nat := if 0x41 ≤ o ∧ o ≤ 0x5a then o + 0x20 else o

/-- Strict lexicographic order on octet strings, shorter prefix first. -/
def lexLtNat : List Nat → List Nat → Bool
  | [], [] => false
  | [], _ :: _ => true
  | _ :: _, [] => false
  | a :: as_, b :: bs => if a < b then true else if b < a then false else lexLtNat as_ bs

/-- Case-insensitive label comparison per RFC 4034 section 6.1. -/
def labelLtCanon (l m : List Nat) : Bool := lexLtNat (l.map lowerOct) (m.map lowerOct)

/-- Lexicographic order on label sequences using canonical label comparison. -/
def canonLtLabels : List (List Nat) → List (List Nat) → Bool
  | [], [] => false
  | [], _ :: _ => true
  | _ :: _, [] => false
  | a :: as_, b :: bs =>
    if labelLtCanon a b then true
    else if labelLtCanon b a then false
    else canonLtLabels as_ bs

/-- Canonical DNS name order: labels compared right to left. -/
def canonicalDnsLt (a b : List (List Nat)) : Bool :=
  canonLtLabels a.reverse b.reverse

/-! SIMD search primitives, simd.h.  Lane predicates are evaluated over the
fixed 16 or 32 lanes a vector load reads; `ctz32` models `__builtin_ctz`,
whose argument-zero case is undefined in C and arbitrarily yields 32 here. -/

/-- Count trailing zeros of a 32-bit value; 32 when the value is 0 (the C
`__builtin_ctz(0)` is undefined behaviour). -/
def ctz32 (n : Nat) : Nat :=
  match (List.range 32).find? (fun i => n.testBit i) with
  | some i => i
  | none => 32

/-- Movemask of an equality compare over `lanes` lanes: bit i is set when
lane i of the vector equals `chr`. -/
def eqBitmap (lanes chr : Nat) (vec : List Nat) : Nat :=
  ((List.range lanes).map (fun i => if vec.getD i 0 = chr then 2 ^ i else 0)).sum

/-- Signed int8 view of an octet, as used by `_mm_cmpgt_epi8`. -/
def toS8 (o : Nat) : Int := if o < 128 then (o : Int) else (o : Int) - 256

/-- Movemask of a signed greater-than compare: bit i set when
`(int8)chr > (int8)vec[i]`. -/
def gtBitmapS (lanes chr : Nat) (vec : List Nat) : Nat :=
  ((List.range lanes).map (fun i => if toS8 (vec.getD i 0) < toS8 chr then 2 ^ i else 0)).sum

/-- nsd_v16_findeq_u8, SSE2 variant (simd.h lines 22-33): broadcast compare,
movemask, mask to the live width, then `__builtin_ctz` of the masked bitmap,
returned through a `uint8_t`. -/
def nsd_v16_findeq_u8_sse2 (chr : Nat) (vec : List Nat) (mx : Nat) : Nat :=
  let mask := if mx < 16 then 2 ^ mx - 1 else 0xffff
  ctz32 (eqBitmap 16 chr vec &&& mask) % 256

/-- nsd_v16_findgt_u8, SSE2 variant (simd.h lines 35-46): signed compare,
complement, mask, count trailing zeros. -/
def nsd_v16_findgt_u8_sse2 (chr : Nat) (vec : List Nat) (mx : Nat) : Nat :=
  let mask := if mx < 16 then 2 ^ mx - 1 else 0xffff
  ctz32 ((gtBitmapS 16 chr vec ^^^ 0xffff) &&& mask) % 256

/-- nsd_v16_findeq_u8, scalar variant (simd.h lines 48-57): scans all 16
entries, ignoring the `max` parameter, and returns a 1-based index or 0. -/
def nsd_v16_findeq_u8_scalar (chr : Nat) (vec : List Nat) (_mx : Nat) : Nat :=
  match (List.range 16).find? (fun i => vec.getD i 0 = chr) with
  | some i => i + 1
  | none => 0

/-- nsd_v16_findgt_u8, scalar variant (simd.h lines 59-68): scans all 16
entries, ignoring `max`, and returns a 1-based index or 0. -/
def nsd_v16_findgt_u8_scalar (chr : Nat) (vec : List Nat) (_mx : Nat) : Nat :=
  match (List.range 16).find? (fun i => chr < vec.getD i 0) with
  | some i => i + 1
  | none => 0

/-- nsd_v32_findeq_u8, AVX2 variant (simd.h lines 72-83). -/
def nsd_v32_findeq_u8_avx2 (chr : Nat) (vec : List Nat) (mx : Nat) : Nat :=
  let mask := if mx < 32 then 2 ^ mx - 1 else 0xffffffff
  ctz32 (eqBitmap 32 chr vec &&& mask) % 256

/-- nsd_v32_findgt_u8, AVX2 variant (simd.h lines 85-96). -/
def nsd_v32_findgt_u8_avx2 (chr : Nat) (vec : List Nat) (mx : Nat) : Nat :=
  let mask := if mx < 32 then 2 ^ mx - 1 else 0xffffffff
  ctz32 ((gtBitmapS 32 chr vec ^^^ 0xffffffff) &&& mask) % 256

/-- Modelled from the spec: the documented contract of findeq (spec section
4.1): the 1-based index of the first position `i < n` with `v[i] = c`, else 0.
Stated separately from the implementations so they can be compared. -/
def findeqSpec (lanes chr : Nat) (vec : List Nat) (mx : Nat) : Nat :=
  match (List.range (min mx lanes)).find? (fun i => vec.getD i 0 = chr) with
  | some i => i + 1
  | none => 0

/-! Tree model, tree.h and tree.c.  Nodes are the six variants of the source
with their header (width, prefix) and fixed-size arrays as lists; a child slot
holds `none` for a C NULL pointer.  Leaves carry their key copy.  Allocation
(calloc/malloc) is modelled by a supply of booleans consumed left to right
(an exhausted supply always succeeds); every operation also reports how many
alloc_node/make_leaf calls succeeded and how many free_node calls ran. -/

/-- Return codes of tree.h lines 15-27. -/
inductive Ret where
  | ok
  | noMemory
  | badParameter
  | notFound
deriving DecidableEq

/-- NSD_MAX_WIDTH, tree.h line 73: the declared size of the N48 `keys` table
and of the N256 `children` table. -/
def NSD_MAX_WIDTH : Nat := 230

/-- Tree nodes.  `w` is the header width, `pfx` the compressed prefix
(`prefix_len` is its length), `keys`/`ch` the per-variant arrays:
n4/n16/n32 carry 4/16/32 keys and children, n38 carries 38 direct slots,
n48 a 230-entry octet table (tree.h line 131) plus 48 children, and n256
230 direct slots (tree.h line 138). -/
inductive Node where
  | leaf (key : List Nat) : Node
  | n4 (w : Nat) (pfx keys : List Nat) (ch : List (Option Node)) : Node
  | n16 (w : Nat) (pfx keys : List Nat) (ch : List (Option Node)) : Node
  | n32 (w : Nat) (pfx keys : List Nat) (ch : List (Option Node)) : Node
  | n38 (w : Nat) (pfx : List Nat) (ch : List (Option Node)) : Node
  | n48 (w : Nat) (pfx keys : List Nat) (ch : List (Option Node)) : Node
  | n256 (w : Nat) (pfx : List Nat) (ch : List (Option Node)) : Node

/-- Outcome of add_child: a rewritten node, a NULL return (allocation
failure), or undefined behaviour in the source. -/
inductive AddOut where
  | ok (nd : Node) : AddOut
  | fail (nd : Node) : AddOut
  | ub : AddOut

/-- compare_keys, tree.c lines 92-106: length of the common prefix of two
keys up to the shorter length. -/
def compareKeys : List Nat → List Nat → Nat
  | a :: as_, b :: bs => if a = b then compareKeys as_ bs + 1 else 0
  | _, _ => 0

/-- One allocation attempt against the supply; an empty supply always
succeeds. -/
def allocOK : List Bool → Bool × List Bool
  | [] => (true, [])
  | b :: r => (b, r)

/-- Shifted insertion into a fixed-size array holding `w` live entries:
entries `[idx, w)` move up one slot and `v` lands at `idx` (the memmove plus
store of add_child4/16/32); for `idx = w` it is a plain append at `w`. -/
def arrIns {α : Type} (l : List α) (idx w : Nat) (v : α) : List α :=
  l.take idx ++ [v] ++ (l.drop idx).take (w - idx) ++ l.drop (w + 1)

/-- Header prefix of a node (empty for a leaf). -/
def nodePfx : Node → List Nat
  | .leaf _ => []
  | .n4 _ p _ _ => p
  | .n16 _ p _ _ => p
  | .n32 _ p _ _ => p
  | .n38 _ p _ => p
  | .n48 _ p _ _ => p
  | .n256 _ p _ => p

/-- Replace the header prefix of a node. -/
def setPfx : Node → List Nat → Node
  | .leaf k, _ => .leaf k
  | .n4 w _ ks ch, p => .n4 w p ks ch
  | .n16 w _ ks ch, p => .n16 w p ks ch
  | .n32 w _ ks ch, p => .n32 w p ks ch
  | .n38 w _ ch, p => .n38 w p ch
  | .n48 w _ ks ch, p => .n48 w p ks ch
  | .n256 w _ ch, p => .n256 w p ch

/-- Overwrite child slot `i` of a node (write through the slot reference the
C code returned). -/
def setChild : Node → Nat → Option Node → Node
  | .leaf k, _, _ => .leaf k
  | .n4 w p ks ch, i, c => .n4 w p ks (ch.set i c)
  | .n16 w p ks ch, i, c => .n16 w p ks (ch.set i c)
  | .n32 w p ks ch, i, c => .n32 w p ks (ch.set i c)
  | .n38 w p ch, i, c => .n38 w p (ch.set i c)
  | .n48 w p ks ch, i, c => .n48 w p ks (ch.set i c)
  | .n256 w p ch, i, c => .n256 w p (ch.set i c)

/-- find_child, tree.c lines 174-246, dispatching on the node variant; `s`
selects the SIMD (SSE2/AVX2) or the scalar build of simd.h.  The result is
the child slot the C function returns: its array position and its current
content (`none` content is a slot holding NULL).  A `none` result is the C
NULL slot-reference return.  For n48 the C indexes the 230-entry keys table
with the full octet (out of bounds for octets at 230 and above, claim C10);
the model's `getD` then yields the default 0.  For n256 the C likewise
indexes 230 children with the full octet.  Without AVX2 the n32 arm of the C
aborts; the model returns `none` (unreachable: no n32 is ever built then). -/
def findChild (s : Bool) (n : Node) (k : Nat) : Option (Nat × Option Node) :=
  match n with
  | .leaf _ => none
  | .n4 w _ keys ch =>
    match (List.range w).find? (fun i => keys.getD i 0 = k) with
    | some i => some (i, ch.getD i none)
    | none => none
  | .n16 w _ keys ch =>
    let idx := if s then nsd_v16_findeq_u8_sse2 k keys w else nsd_v16_findeq_u8_scalar k keys w
    if idx ≠ 0 then some (idx - 1, ch.getD (idx - 1) none) else none
  | .n32 w _ keys ch =>
    if s then
      let idx := nsd_v32_findeq_u8_avx2 k keys w
      if idx ≠ 0 then some (idx - 1, ch.getD (idx - 1) none) else none
    else none
  | .n38 _ _ ch =>
    let idx := node38_xlat k
    if idx ≠ 255 then some (idx, ch.getD idx none) else none
  | .n48 _ _ keys ch =>
    let idx := keys.getD k 0
    if idx ≠ 0 then some (idx - 1, ch.getD (idx - 1) none) else none
  | .n256 _ _ ch => some (k, ch.getD k none)

/-- add_child256, tree.c lines 248-261: store the child at its octet slot and
bump the width (the C write is out of bounds for octets at 230 and above). -/
def addChild256 (a : List Bool) (w : Nat) (pfx : List Nat) (ch : List (Option Node))
    (k : Nat) (child : Node) : AddOut × List Bool × Nat × Nat :=
  (.ok (.n256 (w + 1) pfx (ch.set k (some child))), a, 0, 0)

/-- N48 to N256 promotion copy, tree.c lines 279-286: walk the 256 octets,
copying each present child to its octet slot, stopping after `w` entries. -/
def buildCh256 (w : Nat) (keys : List Nat) (ch : List (Option Node)) :
    List (Option Node) :=
  ((List.range 256).foldl
    (fun (acc : List (Option Node) × Nat × Bool) i =>
      if acc.2.2 then acc
      else
        let x := keys.getD i 0
        if x ≠ 0 then
          (acc.1.set i (ch.getD (x - 1) none), acc.2.1 + 1, acc.2.1 + 1 = w)
        else acc)
    (List.replicate NSD_MAX_WIDTH none, 0, false)).1

/-- add_child48, tree.c lines 263-299: promote to N256 when full (freeing the
old node after a successful allocation), else record the 1-based child index
in the octet table and append the child. -/
def addChild48 (a : List Bool) (w : Nat) (pfx keys : List Nat)
    (ch : List (Option Node)) (k : Nat) (child : Node) :
    AddOut × List Bool × Nat × Nat :=
  if w = 48 then
    match allocOK a with
    | (false, a1) => (.fail (.n48 w pfx keys ch), a1, 0, 0)
    | (true, a1) =>
      match addChild256 a1 w pfx (buildCh256 w keys ch) k child with
      | (r, a2, al, fr) => (r, a2, al + 1, fr + 1)
  else
    (.ok (.n48 (w + 1) pfx (keys.set k (w + 1)) (ch.set w (some child))), a, 0, 0)

/-- N38 to N48 promotion copy, tree.c lines 318-326: walk the 38 slots,
packing present children in order and registering each under
`node38_unxlat` of its slot, stopping after `w` entries. -/
def pack38 (w : Nat) (ch : List (Option Node)) : List Nat × List (Option Node) :=
  let st := (List.range 38).foldl
    (fun (acc : List Nat × List (Option Node) × Nat × Bool) i =>
      if acc.2.2.2 then acc
      else
        match ch.getD i none with
        | some c =>
          (acc.1.set (node38_unxlat i) (acc.2.2.1 + 1), acc.2.1.set acc.2.2.1 (some c),
            acc.2.2.1 + 1, acc.2.2.1 + 1 = w)
        | none => acc)
    (List.replicate NSD_MAX_WIDTH 0, List.replicate 48 none, 0, false)
  (st.1, st.2.1)

/-- add_child38, tree.c lines 301-339: direct store when the octet is in the
hostname alphabet, otherwise promote to N48 via `pack38`. -/
def addChild38 (a : List Bool) (w : Nat) (pfx : List Nat) (ch : List (Option Node))
    (k : Nat) (child : Node) : AddOut × List Bool × Nat × Nat :=
  if node38_xlat k = 255 then
    match allocOK a with
    | (false, a1) => (.fail (.n38 w pfx ch), a1, 0, 0)
    | (true, a1) =>
      match pack38 w ch with
      | (keys48, ch48) =>
        match addChild48 a1 w pfx keys48 ch48 k child with
        | (r, a2, al, fr) => (r, a2, al + 1, fr + 1)
  else
    (.ok (.n38 (w + 1) pfx (ch.set (node38_xlat k) (some child))), a, 0, 0)

/-- add_child32, tree.c lines 341-413 (AVX2 only; the C aborts otherwise,
modelled as undefined).  When full it promotes to N38 if the incoming octet
and all 32 keys lie in the hostname alphabet, else to N48; otherwise it
inserts at the position reported by nsd_v32_findgt_u8 (at the width when that
is 0).  An index beyond the width would make the C memmove a huge size
(assert in debug builds); that is undefined. -/
def addChild32 (s : Bool) (a : List Bool) (w : Nat) (pfx keys : List Nat)
    (ch : List (Option Node)) (k : Nat) (child : Node) :
    AddOut × List Bool × Nat × Nat :=
  if ¬ s then (.ub, a, 0, 0)
  else if w = 32 then
    if (node38_xlat k != 255) && (List.range 32).all (fun i => node38_xlat (keys.getD i 0) != 255) then
      match allocOK a with
      | (false, a1) => (.fail (.n32 w pfx keys ch), a1, 0, 0)
      | (true, a1) =>
        let ch38 := (List.range 32).foldl
          (fun c i => c.set (node38_xlat (keys.getD i 0)) (ch.getD i none))
          (List.replicate 38 none)
        match addChild38 a1 w pfx ch38 k child with
        | (r, a2, al, fr) => (r, a2, al + 1, fr + 1)
    else
      match allocOK a with
      | (false, a1) => (.fail (.n32 w pfx keys ch), a1, 0, 0)
      | (true, a1) =>
        let st := (List.range 32).foldl
          (fun (acc : List Nat × List (Option Node) × Nat) i =>
            (acc.1.set (keys.getD i 0) (acc.2.2 + 1), acc.2.1.set acc.2.2 (ch.getD i none),
              acc.2.2 + 1))
          (List.replicate NSD_MAX_WIDTH 0, List.replicate 48 none, 0)
        match addChild48 a1 w pfx st.1 st.2.1 k child with
        | (r, a2, al, fr) => (r, a2, al + 1, fr + 1)
  else
    if nsd_v32_findgt_u8_avx2 k keys w = 0 then
      (.ok (.n32 (w + 1) pfx (arrIns keys w w k) (arrIns ch w w (some child))), a, 0, 0)
    else if nsd_v32_findgt_u8_avx2 k keys w ≤ w then
      (.ok (.n32 (w + 1) pfx (arrIns keys (nsd_v32_findgt_u8_avx2 k keys w) w k)
        (arrIns ch (nsd_v32_findgt_u8_avx2 k keys w) w (some child))), a, 0, 0)
    else (.ub, a, 0, 0)

/-- add_child16, tree.c lines 415-499.  With AVX2 (`s = true`) a full node is
copied verbatim into a fresh N32.  The scalar full-node branch is modelled
from the spec: the C at tree.c lines 439-473 references the undeclared
identifiers `node` and `cnt` and does not compile; the spec's design note
states the intent (branch on the hostname alphabet, copy the header from the
node, pack the 16 pairs into an N38 or N48).  A non-full node inserts at the
position reported by nsd_v16_findgt_u8, at the width when that is 0. -/
def addChild16 (s : Bool) (a : List Bool) (w : Nat) (pfx keys : List Nat)
    (ch : List (Option Node)) (k : Nat) (child : Node) :
    AddOut × List Bool × Nat × Nat :=
  if w = 16 then
    if s then
      match allocOK a with
      | (false, a1) => (.fail (.n16 w pfx keys ch), a1, 0, 0)
      | (true, a1) =>
        match addChild32 s a1 w pfx (keys ++ List.replicate 16 0)
            (ch ++ List.replicate 16 none) k child with
        | (r, a2, al, fr) => (r, a2, al + 1, fr + 1)
    else
      if (node38_xlat k != 255) && (List.range 16).all (fun i => node38_xlat (keys.getD i 0) != 255) then
        match allocOK a with
        | (false, a1) => (.fail (.n16 w pfx keys ch), a1, 0, 0)
        | (true, a1) =>
          let ch38 := (List.range 16).foldl
            (fun c i => c.set (node38_xlat (keys.getD i 0)) (ch.getD i none))
            (List.replicate 38 none)
          match addChild38 a1 w pfx ch38 k child with
          | (r, a2, al, fr) => (r, a2, al + 1, fr + 1)
      else
        match allocOK a with
        | (false, a1) => (.fail (.n16 w pfx keys ch), a1, 0, 0)
        | (true, a1) =>
          let st := (List.range 16).foldl
            (fun (acc : List Nat × List (Option Node) × Nat) i =>
              (acc.1.set (keys.getD i 0) (acc.2.2 + 1), acc.2.1.set acc.2.2 (ch.getD i none),
                acc.2.2 + 1))
            (List.replicate NSD_MAX_WIDTH 0, List.replicate 48 none, 0)
          match addChild48 a1 w pfx st.1 st.2.1 k child with
          | (r, a2, al, fr) => (r, a2, al + 1, fr + 1)
  else
    if (if s then nsd_v16_findgt_u8_sse2 k keys w else nsd_v16_findgt_u8_scalar k keys w) = 0 then
      (.ok (.n16 (w + 1) pfx (arrIns keys w w k) (arrIns ch w w (some child))), a, 0, 0)
    else if (if s then nsd_v16_findgt_u8_sse2 k keys w else nsd_v16_findgt_u8_scalar k keys w) ≤ w then
      (.ok (.n16 (w + 1) pfx
        (arrIns keys (if s then nsd_v16_findgt_u8_sse2 k keys w else nsd_v16_findgt_u8_scalar k keys w) w k)
        (arrIns ch (if s then nsd_v16_findgt_u8_sse2 k keys w else nsd_v16_findgt_u8_scalar k keys w) w
          (some child))), a, 0, 0)
    else (.ub, a, 0, 0)

/-- add_child4, tree.c lines 501-542: promote a full node to N16 by verbatim
copy, else scan for the first key not below the new octet and insert there
with a shift (at the width when all keys are smaller). -/
def addChild4 (s : Bool) (a : List Bool) (w : Nat) (pfx keys : List Nat)
    (ch : List (Option Node)) (k : Nat) (child : Node) :
    AddOut × List Bool × Nat × Nat :=
  if w = 4 then
    match allocOK a with
    | (false, a1) => (.fail (.n4 w pfx keys ch), a1, 0, 0)
    | (true, a1) =>
      match addChild16 s a1 w pfx (keys ++ List.replicate 12 0)
          (ch ++ List.replicate 12 none) k child with
      | (r, a2, al, fr) => (r, a2, al + 1, fr + 1)
  else
    let pos := match (List.range w).find? (fun i => k ≤ keys.getD i 0) with
      | some i => i
      | none => w
    (.ok (.n4 (w + 1) pfx (arrIns keys pos w k) (arrIns ch pos w (some child))), a, 0, 0)

/-- add_child dispatcher, tree.c lines 544-566 (the C aborts on a leaf). -/
def addChild (s : Bool) (a : List Bool) (nd : Node) (k : Nat) (child : Node) :
    AddOut × List Bool × Nat × Nat :=
  match nd with
  | .leaf _ => (.ub, a, 0, 0)
  | .n4 w pfx keys ch => addChild4 s a w pfx keys ch k child
  | .n16 w pfx keys ch => addChild16 s a w pfx keys ch k child
  | .n32 w pfx keys ch => addChild32 s a w pfx keys ch k child
  | .n38 w pfx ch => addChild38 a w pfx ch k child
  | .n48 w pfx keys ch => addChild48 a w pfx keys ch k child
  | .n256 w pfx ch => addChild256 a w pfx ch k child

/-- Insert-leaf step of nsd_make_path, tree.c lines 776-792: allocate a leaf
carrying a copy of the key (make_leaf); on success add it under the routing
octet, freeing the leaf again if add_child reports allocation failure. -/
def insertLeafStep (s : Bool) (a : List Bool) (nd : Node) (key : List Nat)
    (depth : Nat) : AddOut × List Bool × Nat × Nat :=
  match allocOK a with
  | (false, a1) => (.fail nd, a1, 0, 0)
  | (true, a1) =>
    match addChild s a1 nd (key.getD depth 0) (.leaf key) with
    | (.ok nd2, a2, al, fr) => (.ok nd2, a2, al + 1, fr)
    | (.fail nd2, a2, al, fr) => (.fail nd2, a2, al + 1, fr + 1)
    | (.ub, a2, al, fr) => (.ub, a2, al, fr)

/-- Split-leaf chain construction of nsd_make_path, tree.c lines 686-717:
while `depth < cnt`, allocate an N4 whose prefix covers at most
`min(cnt - depth - 1, NSD_MAX_PREFIX)` octets after the routing octet
`key[depth]`, then advance.  On allocation failure every node allocated so
far is freed (the rollback at lines 689-693) and nothing else changes.  The
result lists each chain node's routing octet and prefix in order; the
accounting pair counts successful allocations and frees.  `fuel` bounds the
loop; callers pass at least `cnt - depth + 1` so it never runs out. -/
def buildChain (fuel : Nat) (a : List Bool) (key : List Nat) (depth cnt : Nat) :
    Option (List (Nat × List Nat)) × List Bool × Nat × Nat :=
  match fuel with
  | 0 => (none, a, 0, 0)
  | fuel' + 1 =>
    if depth < cnt then
      match allocOK a with
      | (false, a1) => (none, a1, 0, 0)
      | (true, a1) =>
        match buildChain fuel' a1 key
            (depth + 1 + (if 8 < cnt - depth then 8 else cnt - depth - 1)) cnt with
        | (none, a2, al, fr) => (none, a2, al + 1, fr + 1)
        | (some segs, a2, al, fr) =>
          (some ((key.getD depth 0,
            (key.drop (depth + 1)).take (if 8 < cnt - depth then 8 else cnt - depth - 1)) :: segs),
            a2, al + 1, fr)
    else (some [], a, 0, 0)

/-- Fresh N4 holding a single child: the calloc of alloc_node followed by
add_child4 into the empty node (chain linking and split-node linking). -/
def n4single (pfx : List Nat) (oct : Nat) (child : Node) : Node :=
  .n4 1 pfx [oct, 0, 0, 0] [some child, none, none, none]

/-- Assemble the split-leaf chain: each node holds the next chain node under
that node's routing octet, and the tip holds the old leaf under its diverging
octet (the add_child calls at tree.c lines 710 and 731).  An empty chain is
the C's read of uninitialized relpath memory: undefined. -/
def assembleChain : List (Nat × List Nat) → Nat → Node → Option Node
  | [], _, _ => none
  | [(_, pfx)], tipOct, tipChild => some (n4single pfx tipOct tipChild)
  | (_, pfx) :: s2 :: rest, tipOct, tipChild =>
    match assembleChain (s2 :: rest) tipOct tipChild with
    | none => none
    | some sub => some (n4single pfx s2.1 sub)

/-- nsd_make_path, tree.c lines 636-796, as a recursion over the slot at the
top of the path.  `depth` is the loop's key offset and `slotDepth` the depth
recorded for this slot on the path (they are equal at the root; a child slot
entered at depth d has slotDepth d and loop depth d + 1).  The result is the
return code, the new slot content, and the remaining supply; `none` marks
undefined behaviour in the source (NULL slot dereference, empty split chain,
an out-of-range findgt index) or exhausted fuel.  After a split-leaf the C
continues with the stale `noderef` of the original slot — now the first chain
node — so the fall-through find_child runs on the chain head. -/
def makeGo (s : Bool) : Nat → List Bool → Option Node → List Nat → Nat → Nat →
    Option (Ret × Option Node × List Bool)
  | 0, _, _, _, _, _ => none
  | fuel + 1, a, slot, key, depth, slotDepth =>
    if key.length ≤ depth then some (.ok, slot, a)
    else
      match slot with
      | none => none
      | some nd =>
        let p1 : Except (Option (Ret × Option Node × List Bool)) (Node × Nat × List Bool) :=
          match nd with
          | .leaf lk =>
            let cnt := compareKeys key lk
            if cnt = key.length then .error (some (.ok, slot, a))
            else
              match buildChain (cnt + 1) a key slotDepth cnt with
              | (none, a1, _, _) => .error (some (.noMemory, slot, a1))
              | (some segs, a1, _, _) =>
                match assembleChain segs (lk.getD cnt 0) (.leaf lk) with
                | none => .error none
                | some chain1 => .ok (chain1, cnt, a1)
          | _ =>
            let pfx := nodePfx nd
            if pfx.length = 0 then .ok (nd, depth, a)
            else
              let cnt := compareKeys (key.drop depth) pfx
              if cnt = pfx.length then .ok (nd, depth + cnt, a)
              else
                match allocOK a with
                | (false, a1) => .error (some (.noMemory, slot, a1))
                | (true, a1) =>
                  .ok (n4single (pfx.take cnt) (pfx.getD cnt 0)
                    (setPfx nd (pfx.drop (cnt + 1))), depth + cnt, a1)
        match p1 with
        | .error r => r
        | .ok (nd1, depth1, a1) =>
          match findChild s nd1 (key.getD depth1 0) with
          | some (i, c) =>
            match makeGo s fuel a1 c key (depth1 + 1) depth1 with
            | none => none
            | some (r, c2, a2) => some (r, some (setChild nd1 i c2), a2)
          | none =>
            match insertLeafStep s a1 nd1 key depth1 with
            | (.ok nd2, a2, _, _) => some (.ok, some nd2, a2)
            | (.fail nd2, a2, _, _) => some (.noMemory, some nd2, a2)
            | (.ub, _, _, _) => none

/-- nsd_find_path, tree.c lines 568-634, over the slot at the top of the
path: full leaf match is ok, a leaf mismatch or a prefix mismatch or a
missing child is not_found, and consuming the whole key is ok.  `none` marks
undefined behaviour (NULL slot dereference) or exhausted fuel. -/
def findGo (s : Bool) : Nat → Option Node → List Nat → Nat → Option Ret
  | 0, _, _, _ => none
  | fuel + 1, slot, key, depth =>
    if key.length ≤ depth then some .ok
    else
      match slot with
      | none => none
      | some (.leaf lk) =>
        if compareKeys key lk = key.length then some .ok else some .notFound
      | some nd =>
        let pfx := nodePfx nd
        if pfx.length ≠ 0 ∧ compareKeys (key.drop depth) pfx ≠ pfx.length then some .notFound
        else
          match findChild s nd (key.getD (depth + pfx.length) 0) with
          | none => some .notFound
          | some (_, c) => findGo s fuel c key (depth + pfx.length + 1)

/-- The empty tree: the root is an empty N4 (main.c lines 87-88). -/
def emptyRoot : Node := .n4 0 [] [0, 0, 0, 0] [none, none, none, none]

/-- One nsd_make_path call on a fresh path against the root slot, with an
always-succeeding allocator. -/
def makePathRun (s : Bool) (root : Node) (key : List Nat) : Option (Ret × Node) :=
  match makeGo s 64 [] (some root) key 0 0 with
  | some (r, some root2, _) => some (r, root2)
  | _ => none

/-- Sequence of nsd_make_path insertions from a given root, collecting the
return codes and the final tree. -/
def runInserts (s : Bool) : List (List Nat) → Node → Option (List Ret × Node)
  | [], root => some ([], root)
  | k :: ks, root =>
    match makePathRun s root k with
    | some (r, root2) =>
      match runInserts s ks root2 with
      | some (rs, rootF) => some (r :: rs, rootF)
      | none => none
    | none => none

/-- Header width of a node. -/
def nodeWidth : Node → Nat
  | .leaf _ => 0
  | .n4 w _ _ _ => w
  | .n16 w _ _ _ => w
  | .n32 w _ _ _ => w
  | .n38 w _ _ => w
  | .n48 w _ _ _ => w
  | .n256 w _ _ => w

/-- The live keys array of an n4/n16/n32 node (empty for other variants). -/
def nodeKeysW : Node → List Nat
  | .n4 w _ keys _ => keys.take w
  | .n16 w _ keys _ => keys.take w
  | .n32 w _ keys _ => keys.take w
  | _ => []

/-- The key stored at a found child slot when that slot holds a leaf. -/
def slotLeafKey : Option (Nat × Option Node) → Option (List Nat)
  | some (_, some (.leaf k)) => some k
  | _ => none

/-- Strict ascension of a list of octets. -/
def strictAsc : List Nat → Bool
  | [] => true
  | [_] => true
  | a :: b :: r => decide (a < b) && strictAsc (b :: r)

/-- The five keys of the refutation runs: produced by nsd_make_key from the
one-label wire names with content octets 1, 2, 3, 4 and 0. -/
def fiveKeys : List (List Nat) := [[2, 0, 0], [3, 0, 0], [4, 0, 0], [5, 0, 0], [1, 0, 0]]


/-! Supporting lemmas about the key transform. -/

set_option maxRecDepth 4000 in
lemma land192_iff : ∀ o : Nat, o < 256 → ((o &&& 192 ≠ 0) ↔ 64 ≤ o) := by decide

lemma xlat_pos (o : Nat) : 0 < xlat o := by
  unfold xlat; split
  · omega
  · split <;> omega

lemma xlat_le (o : Nat) (h : o < 256) : xlat o ≤ 230 := by
  unfold xlat; split
  · omega
  · split <;> omega

lemma mkLoop_label (l rest : List Nat) (len : Nat) (h : l ≠ []) :
    mkLoop (l ++ rest) l.length len =
      (mkLoop rest 0 len).map (fun k => l.map xlat ++ 0 :: k) := by
  induction l with
  | nil => exact absurd rfl h
  | cons a l ih =>
    cases l with
    | nil =>
      cases hE : mkLoop rest 0 len <;> simp [mkLoop, hE]
    | cons b l' =>
      have hrec := ih (by simp)
      cases hE : mkLoop rest 0 len <;>
        simp_all [mkLoop, List.cons_append, List.append_eq]

lemma encodeWire_cons (l : List Nat) (ls : List (List Nat)) :
    encodeWire (l :: ls) = l.length :: (l ++ encodeWire ls) := by
  simp [encodeWire]

lemma encBody_cons (l : List Nat) (ls : List (List Nat)) :
    encBody (l :: ls) = l.map xlat ++ 0 :: encBody ls := by
  simp [encBody]

lemma labelSum_cons (l : List Nat) (ls : List (List Nat)) :
    labelSum (l :: ls) = (l.length + 1) + labelSum ls := by
  simp [labelSum]

lemma encBody_length (ls : List (List Nat)) : (encBody ls).length = labelSum ls := by
  induction ls with
  | nil => simp [encBody, labelSum]
  | cons l ls ih => simp [encBody_cons, labelSum_cons, ih]; try omega

lemma mkLoop_encodeWire (ls : List (List Nat)) :
    ∀ len : Nat, wfLabels ls → len ≤ 255 →
    mkLoop (encodeWire ls) 0 len =
      if (∃ l ∈ ls, 64 ≤ l.length) ∨ 255 < len + labelSum ls then none
      else some (encBody ls) := by
  induction ls with
  | nil =>
    intro len _ hlen
    rw [if_neg (by simp [labelSum]; omega)]
    simp [encodeWire, encBody, mkLoop]
  | cons l ls ih =>
    intro len hwf hlen
    obtain ⟨hne, hl255, _⟩ := hwf l (List.mem_cons_self l ls)
    have hwf' : wfLabels ls := fun x hx => hwf x (List.mem_cons_of_mem l hx)
    rw [encodeWire_cons]
    have hLne : l.length ≠ 0 := by
      cases l with
      | nil => exact absurd rfl hne
      | cons a l' => simp
    simp only [mkLoop, if_neg hLne]
    by_cases h64 : 64 ≤ l.length
    · rw [if_pos (Or.inl ((land192_iff l.length (by omega)).2 h64))]
      rw [if_pos (Or.inl ⟨l, List.mem_cons_self l ls, h64⟩)]
    · by_cases hov : 255 < len + l.length + 1
      · rw [if_pos (Or.inr hov)]
        rw [if_pos (Or.inr (by rw [labelSum_cons]; omega))]
      · rw [if_neg (by
          rintro (hb | hc)
          · exact h64 ((land192_iff l.length (by omega)).1 hb)
          · exact hov hc)]
        rw [mkLoop_label l (encodeWire ls) (len + l.length + 1) hne]
        rw [ih (len + l.length + 1) hwf' (by omega)]
        by_cases hcond : (∃ x ∈ ls, 64 ≤ x.length) ∨ 255 < (len + l.length + 1) + labelSum ls
        · rw [if_pos hcond, if_pos (by
            rcases hcond with ⟨x, hx, h64x⟩ | hcc
            · exact Or.inl ⟨x, List.mem_cons_of_mem l hx, h64x⟩
            · exact Or.inr (by rw [labelSum_cons]; omega))]
          rfl
        · rw [if_neg hcond, if_neg (by
            rintro (⟨x, hx, h64x⟩ | hcc)
            · rcases List.mem_cons.1 hx with rfl | hx'
              · exact h64 h64x
              · exact hcond (Or.inl ⟨x, hx', h64x⟩)
            · exact hcond (Or.inr (by rw [labelSum_cons] at hcc; omega)))]
          rw [encBody_cons]
          rfl

lemma nmk_encodeWire (ls : List (List Nat)) (h : wfLabels ls) :
    nsd_make_key (encodeWire ls) =
      if (∃ l ∈ ls, 64 ≤ l.length) ∨ 255 ≤ labelSum ls then none
      else some (encBody ls ++ [0]) := by
  unfold nsd_make_key
  rw [mkLoop_encodeWire ls 0 h (by omega)]
  by_cases hb : ∃ l ∈ ls, 64 ≤ l.length
  · simp [hb]
  · by_cases hov : 255 < labelSum ls
    · simp [hb, hov, Nat.le_of_lt hov]
    · by_cases heq : labelSum ls = 255
      · simp [hb, hov, encBody_length, heq]
      · simp [hb, hov, encBody_length, heq, show ¬ 255 ≤ labelSum ls by omega]

lemma blocks_eq (xs : List Nat) :
    ∀ (ys u v : List Nat), (∀ o ∈ xs, o ≠ 0) → (∀ o ∈ ys, o ≠ 0) →
    xs ++ 0 :: u = ys ++ 0 :: v → xs = ys ∧ u = v := by
  induction xs with
  | nil =>
    intro ys u v _ hy h
    cases ys with
    | nil => simpa using h
    | cons y ys' =>
      simp only [List.nil_append, List.cons_append, List.cons.injEq] at h
      exact absurd h.1.symm (hy y (List.mem_cons_self y ys'))
  | cons x xs' ih =>
    intro ys u v hx hy h
    cases ys with
    | nil =>
      simp only [List.cons_append, List.nil_append, List.cons.injEq] at h
      exact absurd h.1 (hx x (List.mem_cons_self x xs'))
    | cons y ys' =>
      simp only [List.cons_append, List.cons.injEq] at h
      obtain ⟨h1, h2⟩ := h
      obtain ⟨hxs, hu⟩ := ih ys' u v (fun o ho => hx o (List.mem_cons_of_mem x ho))
        (fun o ho => hy o (List.mem_cons_of_mem y ho)) h2
      exact ⟨by rw [h1, hxs], hu⟩

lemma encBody_ext (la : List (List Nat)) :
    ∀ (lb : List (List Nat)) (t : List Nat),
    (∀ l ∈ la, l ≠ []) → (∀ l ∈ lb, l ≠ []) →
    (encBody la ++ [0]) ++ t = encBody lb ++ [0] →
    encBody la = encBody lb ∧ t = [] := by
  induction la with
  | nil =>
    intro lb t _ hb h
    cases lb with
    | nil => simpa [encBody] using h
    | cons m lb' =>
      exfalso
      rw [encBody_cons] at h
      cases m with
      | nil => exact absurd rfl (hb [] (List.mem_cons_self [] lb'))
      | cons m0 m' =>
        simp only [encBody, List.map_nil, List.flatten_nil, List.nil_append, List.cons_append,
          List.map_cons, List.append_assoc, List.cons.injEq] at h
        exact absurd h.1 (by have := xlat_pos m0; omega)
  | cons l la' ih =>
    intro lb t ha hb h
    have hlne : l ≠ [] := ha l (List.mem_cons_self l la')
    cases lb with
    | nil =>
      exfalso
      rw [encBody_cons] at h
      cases l with
      | nil => exact absurd rfl hlne
      | cons l0 l' =>
        simp only [encBody, List.map_nil, List.flatten_nil, List.map_cons, List.cons_append,
          List.append_assoc, List.nil_append, List.cons.injEq] at h
        exact absurd h.1 (by have := xlat_pos l0; omega)
    | cons m lb' =>
      rw [encBody_cons, encBody_cons] at h
      have h' : l.map xlat ++ 0 :: (encBody la' ++ [0] ++ t)
          = m.map xlat ++ 0 :: (encBody lb' ++ [0]) := by
        simpa [List.append_assoc] using h
      obtain ⟨hmap, htail⟩ := blocks_eq (l.map xlat) (m.map xlat)
        (encBody la' ++ [0] ++ t) (encBody lb' ++ [0])
        (by rintro o ho; obtain ⟨x, _, rfl⟩ := List.mem_map.1 ho; have := xlat_pos x; omega)
        (by rintro o ho; obtain ⟨x, _, rfl⟩ := List.mem_map.1 ho; have := xlat_pos x; omega)
        h'
      obtain ⟨hb', ht⟩ := ih lb' t (fun x hx => ha x (List.mem_cons_of_mem l hx))
        (fun x hx => hb x (List.mem_cons_of_mem m hx)) (by rw [← htail, List.append_assoc])
      refine ⟨?_, ht⟩
      rw [encBody_cons, encBody_cons, hmap, hb']

/-! Claim theorems. -/

/-- C3: for every valid wire name accepted by nsd_make_key, every octet of the
returned key lies in {0x00} plus the range 0x01 to 0xE6; the key is exactly
the xlat-translated labels with their 0x00 separators and final terminator,
and `xlat` never produces 0, so 0x00 occurs only at those positions; and no
returned key is a proper prefix of any other returned key (a key that is a
prefix of another is equal to it). -/
theorem C3_key_octets (la lb : List (List Nat)) (ha : wfLabels la) (hb : wfLabels lb)
    (ka kb : List Nat) (hka : nsd_make_key (encodeWire la) = some ka)
    (hkb : nsd_make_key (encodeWire lb) = some kb) :
    (∀ o ∈ ka, o = 0 ∨ (1 ≤ o ∧ o ≤ 230))
    ∧ ka = encBody la ++ [0]
    ∧ (∀ l ∈ la, ∀ o ∈ l, xlat o ≠ 0)
    ∧ ((∃ t, kb = ka ++ t) → ka = kb) := by
  have hA := nmk_encodeWire la ha
  have hB := nmk_encodeWire lb hb
  rw [hka] at hA
  rw [hkb] at hB
  have hkaE : ka = encBody la ++ [0] := by
    by_cases hc : (∃ l ∈ la, 64 ≤ l.length) ∨ 255 ≤ labelSum la
    · rw [if_pos hc] at hA; cases hA
    · rw [if_neg hc] at hA; exact Option.some.inj hA
  have hkbE : kb = encBody lb ++ [0] := by
    by_cases hc : (∃ l ∈ lb, 64 ≤ l.length) ∨ 255 ≤ labelSum lb
    · rw [if_pos hc] at hB; cases hB
    · rw [if_neg hc] at hB; exact Option.some.inj hB
  refine ⟨?_, hkaE, ?_, ?_⟩
  · intro o ho
    rw [hkaE] at ho
    rcases List.mem_append.1 ho with hbody | hterm
    · obtain ⟨blk, hblk, hoblk⟩ := List.mem_flatten.1 hbody
      obtain ⟨l, hl, rfl⟩ := List.mem_map.1 hblk
      rcases List.mem_append.1 hoblk with hin | h0
      · obtain ⟨x, hx, rfl⟩ := List.mem_map.1 hin
        have hx256 : x < 256 := (ha l hl).2.2 x hx
        exact Or.inr ⟨xlat_pos x, xlat_le x hx256⟩
      · simp only [List.mem_singleton] at h0
        exact Or.inl h0
    · simp only [List.mem_singleton] at hterm
      exact Or.inl hterm
  · intro l _ o _
    have := xlat_pos o
    omega
  · rintro ⟨t, ht⟩
    rw [hkaE, hkbE] at ht
    obtain ⟨hEq, -⟩ := encBody_ext la lb t
      (fun x hx => (ha x hx).1) (fun x hx => (hb x hx).1) ht.symm
    rw [hkaE, hkbE, hEq]

/-- Witness for C3_key_octets at the names "a." and "b.a.". -/
theorem C3_key_octets_witness : [72, 0, 0] = encBody [[97]] ++ [0] :=
  (C3_key_octets [[97]] [[97], [98]] (by decide) (by decide)
    [72, 0, 0] [72, 0, 73, 0, 0] (by decide) (by decide)).2.1

/-- C8: for a well-formed wire name, nsd_make_key fails (the C returns
length 0) exactly when some length octet has one of its top two bits set
(equivalently, for octet values, when some label is 64 octets or longer) or
the total key length (body plus terminator) would exceed 255; on every other
input it returns the key, whose length is that positive total. -/
theorem C8_make_key_failure (ls : List (List Nat)) (h : wfLabels ls) :
    (nsd_make_key (encodeWire ls) = none ↔
      ((∃ l ∈ ls, 64 ≤ l.length) ∨ 255 < totalKeyLen ls))
    ∧ (∀ k, nsd_make_key (encodeWire ls) = some k →
        k.length = totalKeyLen ls ∧ 0 < k.length) := by
  have hA := nmk_encodeWire ls h
  constructor
  · constructor
    · intro hnone
      rw [hA] at hnone
      by_cases hc : (∃ l ∈ ls, 64 ≤ l.length) ∨ 255 ≤ labelSum ls
      · rcases hc with hb2 | hs
        · exact Or.inl hb2
        · exact Or.inr (by unfold totalKeyLen; omega)
      · rw [if_neg hc] at hnone; cases hnone
    · intro hcond
      rw [hA, if_pos ?hc]
      case hc =>
        rcases hcond with hb2 | hs
        · exact Or.inl hb2
        · exact Or.inr (by unfold totalKeyLen at hs; omega)
  · intro k hk
    rw [hA] at hk
    by_cases hc : (∃ l ∈ ls, 64 ≤ l.length) ∨ 255 ≤ labelSum ls
    · rw [if_pos hc] at hk; cases hk
    · rw [if_neg hc] at hk
      have hkE : k = encBody ls ++ [0] := (Option.some.inj hk).symm
      rw [hkE]
      simp only [List.length_append, encBody_length, List.length_singleton]
      unfold totalKeyLen
      omega

/-- Witness for C8_make_key_failure at the name "a.". -/
theorem C8_make_key_failure_witness :
    nsd_make_key (encodeWire [[97]]) = none ↔
      ((∃ l ∈ [[97]], 64 ≤ l.length) ∨ 255 < totalKeyLen [[97]]) :=
  (C8_make_key_failure [[97]] (by decide)).1

/-- C2: the claim that lexicographic key order equals canonical DNS name
order (RFC 4034 section 6.1) fails: nsd_make_key translates labels in wire
order without the reversal documented in the tree.h header comment, so for
the names "a.b." and "b.a." the canonical order ranks "b.a." first while the
keys sort "a.b." first. -/
theorem C2_canonical_order_mismatch :
    canonicalDnsLt [[98], [97]] [[97], [98]] = true
    ∧ canonicalDnsLt [[97], [98]] [[98], [97]] = false
    ∧ nsd_make_key (encodeWire [[97], [98]]) = some [72, 0, 73, 0, 0]
    ∧ nsd_make_key (encodeWire [[98], [97]]) = some [73, 0, 72, 0, 0]
    ∧ lexLtNat [72, 0, 73, 0, 0] [73, 0, 72, 0, 0] = true
    ∧ lexLtNat [73, 0, 72, 0, 0] [72, 0, 73, 0, 0] = false := by decide

/-- C5: the findeq implementations do not meet the documented contract
(1-based index of the first match below the width, else 0).  The SSE2 and
AVX2 variants return the 0-based bit position, so a match in lane 0 is
reported as 0 (absent); the scalar fallback ignores the width and reports a
match beyond it. -/
theorem C5_findeq_contract :
    (nsd_v16_findeq_u8_sse2 7 (7 :: List.replicate 15 0) 16 = 0
      ∧ findeqSpec 16 7 (7 :: List.replicate 15 0) 16 = 1)
    ∧ (nsd_v16_findeq_u8_scalar 0 (1 :: List.replicate 15 0) 1 = 2
      ∧ findeqSpec 16 0 (1 :: List.replicate 15 0) 1 = 0)
    ∧ (nsd_v32_findeq_u8_avx2 7 (7 :: List.replicate 31 0) 32 = 0
      ∧ findeqSpec 32 7 (7 :: List.replicate 31 0) 32 = 1) := by decide

set_option maxRecDepth 4000 in
/-- C10: the bounds claim fails at octet 0xE6 = 230: that octet occurs in
valid keys (it is xlat of 0xFF), yet the N48 keys table and the N256
children table both have NSD_MAX_WIDTH = 230 entries (tree.h lines 131 and
138), whose legal indices stop at 229, so find_child48 and find_child256
index one past the end on it. -/
theorem C10_table_bounds :
    xlat 255 = 230
    ∧ nsd_make_key (encodeWire [[255]]) = some [230, 0, 0]
    ∧ NSD_MAX_WIDTH = 230
    ∧ ¬ (230 < NSD_MAX_WIDTH)
    ∧ (pack38 0 (List.replicate 38 none)).1.length = NSD_MAX_WIDTH := by decide

set_option maxRecDepth 200000 in
/-- C1: the find/make correspondence fails.  In the SSE2 build, inserting the
valid keys [2,0,0], [3,0,0], [4,0,0], [5,0,0], [1,0,0] (all produced by
nsd_make_key) succeeds, yet a fresh nsd_find_path of the inserted keys
[1,0,0] and [2,0,0] returns not_found; in the scalar build the same five
insertions succeed and a fresh nsd_find_path of the never-inserted root key
[0] returns ok. -/
theorem C1_find_after_make :
    nsd_make_key (encodeWire [[1]]) = some [2, 0, 0]
    ∧ nsd_make_key (encodeWire [[2]]) = some [3, 0, 0]
    ∧ nsd_make_key (encodeWire [[3]]) = some [4, 0, 0]
    ∧ nsd_make_key (encodeWire [[4]]) = some [5, 0, 0]
    ∧ nsd_make_key (encodeWire [[0]]) = some [1, 0, 0]
    ∧ nsd_make_key (encodeWire []) = some [0]
    ∧ (runInserts true fiveKeys emptyRoot).map
        (fun p => (p.1, findGo true 64 (some p.2) [1, 0, 0] 0,
          findGo true 64 (some p.2) [2, 0, 0] 0))
      = some ([.ok, .ok, .ok, .ok, .ok], some .notFound, some .notFound)
    ∧ (runInserts false fiveKeys emptyRoot).map
        (fun p => (p.1, findGo false 64 (some p.2) [0] 0))
      = some ([.ok, .ok, .ok, .ok, .ok], some .ok)
    ∧ [0] ∉ fiveKeys
    ∧ [1, 0, 0] ∈ fiveKeys
    ∧ [2, 0, 0] ∈ fiveKeys := by decide

set_option maxRecDepth 200000 in
/-- C7: strict ascension of the keys array fails under insertion.  After the
five insertions of C1 the root is an N16; in the SSE2 build
nsd_v16_findgt_u8 reports 0 for the new smallest octet, so add_child16
appends it at the width, producing keys [2,3,4,5,1]; in the scalar build the
1-based result makes add_child16 insert one slot late, producing
[2,1,3,4,5].  Neither array is strictly ascending. -/
theorem C7_keys_not_ascending :
    (runInserts true fiveKeys emptyRoot).map (fun p => (p.1, nodeKeysW p.2))
      = some ([.ok, .ok, .ok, .ok, .ok], [2, 3, 4, 5, 1])
    ∧ strictAsc [2, 3, 4, 5, 1] = false
    ∧ (runInserts false fiveKeys emptyRoot).map (fun p => (p.1, nodeKeysW p.2))
      = some ([.ok, .ok, .ok, .ok, .ok], [2, 1, 3, 4, 5])
    ∧ strictAsc [2, 1, 3, 4, 5] = false := by decide

set_option maxRecDepth 200000 in
/-- C9: re-insertion of a present key is not idempotent.  In the SSE2 build,
after the five insertions of C1 the key [2,0,0] sits in lane 0 of the root
N16; nsd_v16_findeq_u8 reports lane 0 as 0 (absent), so nsd_make_path
returns ok but appends a duplicate leaf: the width grows from 5 to 6 and the
keys array gains a second 2. -/
theorem C9_reinsert_not_idempotent :
    (runInserts true fiveKeys emptyRoot).map (fun p => (nodeWidth p.2, nodeKeysW p.2))
      = some (5, [2, 3, 4, 5, 1])
    ∧ (runInserts true (fiveKeys ++ [[2, 0, 0]]) emptyRoot).map
        (fun p => (p.1, nodeWidth p.2, nodeKeysW p.2))
      = some ([.ok, .ok, .ok, .ok, .ok, .ok], 6, [2, 3, 4, 5, 1, 2])
    ∧ [2, 0, 0] ∈ fiveKeys := by decide

set_option maxRecDepth 8000 in
/-- C4: promotion does not preserve the bindings.  node38_unxlat maps slot
0x0b (the digit 9, key octet 0x3a = 58) to 0x47 = 71 instead of 58 because
its first branch starts at 0x0b instead of 0x0c, so the N38 to N48 promotion
of add_child38 re-registers the child stored under octet 58 at octet 71:
after promoting a one-child N38 by adding a non-hostname octet, find_child
no longer finds octet 58 and finds the old leaf under octet 71. -/
theorem C4_promotion_binding_lost :
    node38_xlat 58 = 11
    ∧ node38_unxlat 11 = 71
    ∧ node38_unxlat (node38_xlat 58) ≠ 58
    ∧ slotLeafKey (findChild true
        (Node.n38 1 [] ((List.replicate 38 none).set 11 (some (Node.leaf [58, 0, 0])))) 58)
      = some [58, 0, 0]
    ∧ (match addChild38 [] 1 [] ((List.replicate 38 none).set 11 (some (Node.leaf [58, 0, 0])))
          64 (Node.leaf [64, 0, 0]) with
      | (.ok nd, _, _, _) =>
        some ((findChild true nd 58).isNone, slotLeafKey (findChild true nd 71))
      | _ => none)
      = some (true, some [58, 0, 0]) := by decide

/-! Supporting lemmas for the no_memory rollback claim (C6). -/

/-- Width consistency of a node: the header width does not exceed the
variant's capacity (always true for nodes the tree builds). -/
def widthOK : Node → Prop
  | .leaf _ => True
  | .n4 w _ _ _ => w ≤ 4
  | .n16 w _ _ _ => w ≤ 16
  | .n32 w _ _ _ => w ≤ 32
  | .n38 w _ _ => w ≤ 38
  | .n48 w _ _ _ => w ≤ 48
  | .n256 _ _ _ => True

lemma buildChain_balance (fuel : Nat) :
    ∀ a key depth cnt a2 al fr,
    buildChain fuel a key depth cnt = (none, a2, al, fr) → al = fr := by
  induction fuel with
  | zero =>
    intro a key depth cnt a2 al fr h
    simp only [buildChain, Prod.mk.injEq] at h
    omega
  | succ f ih =>
    intro a key depth cnt a2 al fr h
    simp only [buildChain] at h
    by_cases hd : depth < cnt
    · rw [if_pos hd] at h
      rcases hA : allocOK a with ⟨ok?, a1⟩
      rw [hA] at h
      cases ok? with
      | false =>
        simp only [Prod.mk.injEq] at h
        omega
      | true =>
        simp only at h
        rcases hR : buildChain f a1 key
            (depth + 1 + (if 8 < cnt - depth then 8 else cnt - depth - 1)) cnt with
          ⟨r, a3, al3, fr3⟩
        rw [hR] at h
        cases r with
        | none =>
          simp only [Prod.mk.injEq] at h
          have := ih a1 key (depth + 1 + (if 8 < cnt - depth then 8 else cnt - depth - 1))
            cnt a3 al3 fr3 hR
          omega
        | some segs => simp at h
    · rw [if_neg hd] at h
      simp only [Prod.mk.injEq] at h
      omega

lemma addChild256_notFail {a : List Bool} {w : Nat} {pfx : List Nat}
    {ch : List (Option Node)} {k : Nat} {child nd2 : Node} {a2 : List Bool}
    {al fr : Nat} (h : addChild256 a w pfx ch k child = (.fail nd2, a2, al, fr)) :
    False := by
  simp [addChild256] at h

lemma addChild48_ne48 (a : List Bool) (w : Nat) (pfx keys : List Nat)
    (ch : List (Option Node)) (k : Nat) (child : Node) (hw : w ≠ 48) :
    addChild48 a w pfx keys ch k child
      = (.ok (.n48 (w + 1) pfx (keys.set k (w + 1)) (ch.set w (some child))), a, 0, 0) := by
  unfold addChild48
  rw [if_neg hw]

lemma addChild38_host (a : List Bool) (w : Nat) (pfx : List Nat)
    (ch : List (Option Node)) (k : Nat) (child : Node) (hk : node38_xlat k ≠ 255) :
    addChild38 a w pfx ch k child
      = (.ok (.n38 (w + 1) pfx (ch.set (node38_xlat k) (some child))), a, 0, 0) := by
  unfold addChild38
  rw [if_neg hk]

lemma addChild48_fail {a : List Bool} {w : Nat} {pfx keys : List Nat}
    {ch : List (Option Node)} {k : Nat} {child nd2 : Node} {a2 : List Bool}
    {al fr : Nat} (h : addChild48 a w pfx keys ch k child = (.fail nd2, a2, al, fr)) :
    al = fr ∧ nd2 = .n48 w pfx keys ch := by
  unfold addChild48 at h
  by_cases hw : w = 48
  · rw [if_pos hw] at h
    rcases hA : allocOK a with ⟨ok?, a1⟩
    rw [hA] at h
    cases ok? with
    | false =>
      simp only [AddOut.fail.injEq, Prod.mk.injEq] at h
      exact ⟨by omega, h.1.symm⟩
    | true =>
      simp only at h
      rcases hR : addChild256 a1 w pfx (buildCh256 w keys ch) k child with ⟨r, a3, al3, fr3⟩
      rw [hR] at h
      cases r with
      | ok nd' => simp at h
      | fail nd' => exact absurd hR (fun hc => addChild256_notFail hc)
      | ub => simp at h
  · rw [if_neg hw] at h
    simp at h

lemma addChild38_fail {a : List Bool} {w : Nat} {pfx : List Nat}
    {ch : List (Option Node)} {k : Nat} {child nd2 : Node} {a2 : List Bool}
    {al fr : Nat} (hw : w ≤ 38)
    (h : addChild38 a w pfx ch k child = (.fail nd2, a2, al, fr)) :
    al = fr ∧ nd2 = .n38 w pfx ch := by
  unfold addChild38 at h
  by_cases hidx : node38_xlat k = 255
  · rw [if_pos hidx] at h
    rcases hA : allocOK a with ⟨ok?, a1⟩
    rw [hA] at h
    cases ok? with
    | false =>
      simp only [AddOut.fail.injEq, Prod.mk.injEq] at h
      exact ⟨by omega, h.1.symm⟩
    | true =>
      simp only at h
      rcases hP : pack38 w ch with ⟨keys48, ch48⟩
      rw [hP] at h
      simp only at h
      rw [addChild48_ne48 a1 w pfx keys48 ch48 k child (by omega)] at h
      simp at h
  · rw [if_neg hidx] at h
    simp at h

lemma addChild32_small (s : Bool) (a : List Bool) (w : Nat) (pfx keys : List Nat)
    (ch : List (Option Node)) (k : Nat) (child : Node) (hs : s = true) (hw : w ≠ 32) :
    (∃ nd', addChild32 s a w pfx keys ch k child = (.ok nd', a, 0, 0))
    ∨ addChild32 s a w pfx keys ch k child = (.ub, a, 0, 0) := by
  subst hs
  unfold addChild32
  rw [if_neg (by simp), if_neg hw]
  by_cases h0 : nsd_v32_findgt_u8_avx2 k keys w = 0
  · rw [if_pos h0]
    exact Or.inl ⟨_, rfl⟩
  · rw [if_neg h0]
    by_cases hle : nsd_v32_findgt_u8_avx2 k keys w ≤ w
    · rw [if_pos hle]
      exact Or.inl ⟨_, rfl⟩
    · rw [if_neg hle]
      exact Or.inr rfl

lemma addChild16_small (s : Bool) (a : List Bool) (w : Nat) (pfx keys : List Nat)
    (ch : List (Option Node)) (k : Nat) (child : Node) (hw : w ≠ 16) :
    (∃ nd', addChild16 s a w pfx keys ch k child = (.ok nd', a, 0, 0))
    ∨ addChild16 s a w pfx keys ch k child = (.ub, a, 0, 0) := by
  unfold addChild16
  rw [if_neg hw]
  by_cases h0 : (if s then nsd_v16_findgt_u8_sse2 k keys w else nsd_v16_findgt_u8_scalar k keys w) = 0
  · rw [if_pos h0]
    exact Or.inl ⟨_, rfl⟩
  · rw [if_neg h0]
    by_cases hle :
        (if s then nsd_v16_findgt_u8_sse2 k keys w else nsd_v16_findgt_u8_scalar k keys w) ≤ w
    · rw [if_pos hle]
      exact Or.inl ⟨_, rfl⟩
    · rw [if_neg hle]
      exact Or.inr rfl

lemma addChild32_fail {s : Bool} {a : List Bool} {w : Nat} {pfx keys : List Nat}
    {ch : List (Option Node)} {k : Nat} {child nd2 : Node} {a2 : List Bool}
    {al fr : Nat} (hw : w ≤ 32)
    (h : addChild32 s a w pfx keys ch k child = (.fail nd2, a2, al, fr)) :
    al = fr ∧ nd2 = .n32 w pfx keys ch := by
  unfold addChild32 at h
  by_cases hs : ¬ s
  · rw [if_pos hs] at h
    simp at h
  · rw [if_neg hs] at h
    by_cases hfull : w = 32
    · rw [if_pos hfull] at h
      by_cases hhost :
          (node38_xlat k != 255 && (List.range 32).all fun i => node38_xlat (keys.getD i 0) != 255)
            = true
      · rw [if_pos hhost] at h
        rcases hA : allocOK a with ⟨ok?, a1⟩
        rw [hA] at h
        cases ok? with
        | false =>
          simp only [AddOut.fail.injEq, Prod.mk.injEq] at h
          exact ⟨by omega, h.1.symm⟩
        | true =>
          simp only at h
          exfalso
          have hk : node38_xlat k ≠ 255 := by
            rw [Bool.and_eq_true] at hhost
            simpa using hhost.1
          rw [addChild38_host a1 w pfx _ k child hk] at h
          simp at h
      · rw [if_neg hhost] at h
        rcases hA : allocOK a with ⟨ok?, a1⟩
        rw [hA] at h
        cases ok? with
        | false =>
          simp only [AddOut.fail.injEq, Prod.mk.injEq] at h
          exact ⟨by omega, h.1.symm⟩
        | true =>
          simp only at h
          exfalso
          rw [addChild48_ne48 a1 w pfx _ _ k child (by omega)] at h
          simp at h
    · rw [if_neg hfull] at h
      by_cases h0 : nsd_v32_findgt_u8_avx2 k keys w = 0
      · rw [if_pos h0] at h
        simp at h
      · rw [if_neg h0] at h
        by_cases hle : nsd_v32_findgt_u8_avx2 k keys w ≤ w
        · rw [if_pos hle] at h
          simp at h
        · rw [if_neg hle] at h
          simp at h

lemma addChild16_fail {s : Bool} {a : List Bool} {w : Nat} {pfx keys : List Nat}
    {ch : List (Option Node)} {k : Nat} {child nd2 : Node} {a2 : List Bool}
    {al fr : Nat} (hw : w ≤ 16)
    (h : addChild16 s a w pfx keys ch k child = (.fail nd2, a2, al, fr)) :
    al = fr ∧ nd2 = .n16 w pfx keys ch := by
  unfold addChild16 at h
  by_cases hfull : w = 16
  · rw [if_pos hfull] at h
    by_cases hs : s
    · rw [if_pos hs] at h
      rcases hA : allocOK a with ⟨ok?, a1⟩
      rw [hA] at h
      cases ok? with
      | false =>
        simp only [AddOut.fail.injEq, Prod.mk.injEq] at h
        exact ⟨by omega, h.1.symm⟩
      | true =>
        simp only at h
        exfalso
        rcases addChild32_small s a1 w pfx (keys ++ List.replicate 16 0)
            (ch ++ List.replicate 16 none) k child (by simpa using hs) (by omega) with
          ⟨nd', hok⟩ | hub
        · rw [hok] at h
          simp at h
        · rw [hub] at h
          simp at h
    · rw [if_neg hs] at h
      by_cases hhost :
          (node38_xlat k != 255 && (List.range 16).all fun i => node38_xlat (keys.getD i 0) != 255)
            = true
      · rw [if_pos hhost] at h
        rcases hA : allocOK a with ⟨ok?, a1⟩
        rw [hA] at h
        cases ok? with
        | false =>
          simp only [AddOut.fail.injEq, Prod.mk.injEq] at h
          exact ⟨by omega, h.1.symm⟩
        | true =>
          simp only at h
          exfalso
          have hk : node38_xlat k ≠ 255 := by
            rw [Bool.and_eq_true] at hhost
            simpa using hhost.1
          rw [addChild38_host a1 w pfx _ k child hk] at h
          simp at h
      · rw [if_neg hhost] at h
        rcases hA : allocOK a with ⟨ok?, a1⟩
        rw [hA] at h
        cases ok? with
        | false =>
          simp only [AddOut.fail.injEq, Prod.mk.injEq] at h
          exact ⟨by omega, h.1.symm⟩
        | true =>
          simp only at h
          exfalso
          rw [addChild48_ne48 a1 w pfx _ _ k child (by omega)] at h
          simp at h
  · rw [if_neg hfull] at h
    by_cases h0 : (if s then nsd_v16_findgt_u8_sse2 k keys w else nsd_v16_findgt_u8_scalar k keys w) = 0
    · rw [if_pos h0] at h
      simp at h
    · rw [if_neg h0] at h
      by_cases hle :
          (if s then nsd_v16_findgt_u8_sse2 k keys w else nsd_v16_findgt_u8_scalar k keys w) ≤ w
      · rw [if_pos hle] at h
        simp at h
      · rw [if_neg hle] at h
        simp at h

lemma addChild4_fail {s : Bool} {a : List Bool} {w : Nat} {pfx keys : List Nat}
    {ch : List (Option Node)} {k : Nat} {child nd2 : Node} {a2 : List Bool}
    {al fr : Nat} (hw : w ≤ 4)
    (h : addChild4 s a w pfx keys ch k child = (.fail nd2, a2, al, fr)) :
    al = fr ∧ nd2 = .n4 w pfx keys ch := by
  unfold addChild4 at h
  by_cases hfull : w = 4
  · rw [if_pos hfull] at h
    rcases hA : allocOK a with ⟨ok?, a1⟩
    rw [hA] at h
    cases ok? with
    | false =>
      simp only [AddOut.fail.injEq, Prod.mk.injEq] at h
      exact ⟨by omega, h.1.symm⟩
    | true =>
      simp only at h
      exfalso
      rcases addChild16_small s a1 w pfx (keys ++ List.replicate 12 0)
          (ch ++ List.replicate 12 none) k child (by omega) with
        ⟨nd', hok⟩ | hub
      · rw [hok] at h
        simp at h
      · rw [hub] at h
        simp at h
  · rw [if_neg hfull] at h
    simp at h

lemma addChild_fail {s : Bool} {a : List Bool} {nd : Node} {k : Nat}
    {child nd2 : Node} {a2 : List Bool} {al fr : Nat} (hw : widthOK nd)
    (h : addChild s a nd k child = (.fail nd2, a2, al, fr)) :
    al = fr ∧ nd2 = nd := by
  cases nd with
  | leaf lk => simp [addChild] at h
  | n4 w pfx keys ch => exact addChild4_fail hw h
  | n16 w pfx keys ch => exact addChild16_fail hw h
  | n32 w pfx keys ch => exact addChild32_fail hw h
  | n38 w pfx ch => exact addChild38_fail hw h
  | n48 w pfx keys ch => exact addChild48_fail h
  | n256 w pfx ch =>
    simp only [addChild] at h
    exact absurd h (fun hc => addChild256_notFail hc)

lemma insertLeafStep_fail {s : Bool} {a : List Bool} {nd : Node} {key : List Nat}
    {depth : Nat} {nd2 : Node} {a2 : List Bool} {al fr : Nat} (hw : widthOK nd)
    (h : insertLeafStep s a nd key depth = (.fail nd2, a2, al, fr)) :
    al = fr ∧ nd2 = nd := by
  unfold insertLeafStep at h
  rcases hA : allocOK a with ⟨ok?, a1⟩
  rw [hA] at h
  cases ok? with
  | false =>
    simp only [AddOut.fail.injEq, Prod.mk.injEq] at h
    exact ⟨by omega, h.1.symm⟩
  | true =>
    simp only at h
    rcases hC : addChild s a1 nd (key.getD depth 0) (.leaf key) with ⟨r, a3, al3, fr3⟩
    rw [hC] at h
    cases r with
    | ok nd' => simp at h
    | fail nd' =>
      simp only [AddOut.fail.injEq, Prod.mk.injEq] at h
      obtain ⟨hbal, hnd⟩ := addChild_fail hw hC
      exact ⟨by omega, by rw [← h.1, hnd]⟩
    | ub => simp at h

lemma makeGo_splitLeaf_noMemory (s : Bool) (fuel : Nat) (a : List Bool)
    (key lk : List Nat) (depth slotDepth : Nat) (a2 : List Bool) (al fr : Nat)
    (hd : depth < key.length)
    (hc : compareKeys key lk ≠ key.length)
    (hb : buildChain (compareKeys key lk + 1) a key slotDepth (compareKeys key lk)
      = (none, a2, al, fr)) :
    makeGo s (fuel + 1) a (some (.leaf lk)) key depth slotDepth
      = some (.noMemory, some (.leaf lk), a2) := by
  simp only [makeGo, hb, if_neg hc, if_neg (show ¬ key.length ≤ depth by omega)]

/-- C6: the no_memory rollback of nsd_make_path is correct at each failing
step.  (1) When the split-leaf chain construction fails, the number of nodes
freed by the rollback equals the number allocated.  (2) When add_child
reports allocation failure on a width-consistent node, no allocation leaks
(allocations equal frees) and the node is exactly as it was at entry.
(3) The same holds for the whole insert-leaf step, which frees the fresh
leaf when add_child fails.  (4) When the chain construction inside
nsd_make_path fails, the call returns no_memory with the slot still holding
the original leaf and the supply as the rollback left it. -/
theorem C6_no_memory_rollback :
    (∀ fuel a key depth cnt a2 al fr,
      buildChain fuel a key depth cnt = (none, a2, al, fr) → al = fr)
    ∧ (∀ (s : Bool) a nd k child nd2 a2 al fr, widthOK nd →
      addChild s a nd k child = (.fail nd2, a2, al, fr) → al = fr ∧ nd2 = nd)
    ∧ (∀ (s : Bool) a nd key depth nd2 a2 al fr, widthOK nd →
      insertLeafStep s a nd key depth = (.fail nd2, a2, al, fr) → al = fr ∧ nd2 = nd)
    ∧ (∀ (s : Bool) fuel a key lk depth slotDepth a2 al fr,
      depth < key.length →
      compareKeys key lk ≠ key.length →
      buildChain (compareKeys key lk + 1) a key slotDepth (compareKeys key lk)
        = (none, a2, al, fr) →
      makeGo s (fuel + 1) a (some (.leaf lk)) key depth slotDepth
        = some (.noMemory, some (.leaf lk), a2)) :=
  ⟨buildChain_balance,
   fun _ _ _ _ _ _ _ _ _ hw h => addChild_fail hw h,
   fun _ _ _ _ _ _ _ _ _ hw h => insertLeafStep_fail hw h,
   makeGo_splitLeaf_noMemory⟩

/-- Witness for C6_no_memory_rollback: with a single failing allocation, the
split of the leaf [1,9,9] against the key [1,2,3] returns no_memory and
leaves the slot holding the original leaf. -/
theorem C6_no_memory_rollback_witness :
    makeGo true 5 [false] (some (Node.leaf [1, 9, 9])) [1, 2, 3] 1 0
      = some (.noMemory, some (Node.leaf [1, 9, 9]), []) :=
  C6_no_memory_rollback.2.2.2 true 4 [false] [1, 2, 3] [1, 9, 9] 1 0 [] 0 0
    (by decide) (by decide) (by decide)

end Namedb
